import Mathlib

/-!
A shallow embedding, in Lean 4, of the transaction-validation and wire-decoding
core of the bitcrust repository (`bitcrust-lib/src/transaction.rs` and
`net/src/parser.rs`), together with proofs about that embedding.

Bytes are modelled as natural numbers; wire bytes are values `< 256`.
Fallible parsing is modelled with `Option` (the buffer layer's
`EndOfBufferError`) and with an explicit result type mirroring nom's
`IResult` (done / incomplete / error) for the network parser.

External collaborators of the core (the SHA-256 primitive from the `sha2`
crate and the foreign `bitcoin_verify_script`) are passed in as explicit
function arguments, mirroring their role as opaque external contracts.
-/

namespace Bitcrust

/-- A wire byte, modelled as a natural number (< 256 on real inputs). -/
abbrev Byte := Nat

/-- Little-endian interpretation of a byte list. -/
def leNat : List Byte → Nat
  | [] => 0
  | b :: rest => b + 256 * leNat rest

/-- Big-endian interpretation of a byte list (used for ports). -/
def beNat (l : List Byte) : Nat :=
  l.foldl (fun acc b => acc * 256 + b) 0

/-- Take `n` bytes from the front of the buffer; `none` models the buffer
layer's `EndOfBufferError`. -/
def readBytes (n : Nat) (l : List Byte) : Option (List Byte × List Byte) :=
  if n ≤ l.length then some (l.take n, l.drop n) else none

/-- Modelled from the spec (§4.1, `buffer.rs` is not under `src/`):
read a fixed-width little-endian unsigned integer of `w` bytes.
Signed fields (`i32`, `i64`) are carried as their little-endian bit
pattern, which is what the wire holds. -/
def parseLE (w : Nat) (l : List Byte) : Option (Nat × List Byte) :=
  (readBytes w l).map (fun p => (leNat p.1, p.2))

/-- Modelled from the spec (§4.1, `buffer.rs` is not under `src/`):
compact-size decode.  First byte `b`: if `b < 0xFD` the value is `b`;
`0xFD`/`0xFE`/`0xFF` announce a 2/4/8-byte little-endian integer.
No canonicalization check is performed on decode. -/
def parse_compact_size (l : List Byte) : Option (Nat × List Byte) :=
  match l with
  | [] => none
  | b :: rest =>
    if b < 0xFD then some (b, rest)
    else if b = 0xFD then parseLE 2 rest
    else if b = 0xFE then parseLE 4 rest
    else parseLE 8 rest

/-- Modelled from the spec (§4.1, `buffer.rs` is not under `src/`):
`parse_compact_size_bytes` — a compact-size length followed by that many
bytes, returned as a slice. -/
def parse_compact_size_bytes (l : List Byte) : Option (List Byte × List Byte) :=
  match parse_compact_size l with
  | none => none
  | some (n, rest) => readBytes n rest

/-- `TxInput` of `transaction.rs`: previous-output hash (32 bytes),
previous-output index (u32), signature script, sequence (u32). -/
structure TxInput where
  prev_tx_out     : List Byte
  prev_tx_out_idx : Nat
  script          : List Byte
  sequence        : Nat
deriving DecidableEq, Repr

/-- `TxOutput` of `transaction.rs`: value (i64 bit pattern) and pk_script. -/
structure TxOutput where
  value     : Nat
  pk_script : List Byte
deriving DecidableEq, Repr

/-- `Transaction` of `transaction.rs`.  `raw` is the exact byte span the
transaction was parsed from. -/
structure Transaction where
  version   : Nat
  txs_in    : List TxInput
  txs_out   : List TxOutput
  lock_time : Nat
  raw       : List Byte
deriving DecidableEq, Repr

/-- `TxInput::parse`: 32-byte prev hash, u32 prev index, compact-size
prefixed script, u32 sequence. -/
def TxInput.parse (l : List Byte) : Option (TxInput × List Byte) := do
  let (h, l1) ← readBytes 32 l
  let (idx, l2) ← parseLE 4 l1
  let (scr, l3) ← parse_compact_size_bytes l2
  let (seq, l4) ← parseLE 4 l3
  return (⟨h, idx, scr, seq⟩, l4)

/-- `TxOutput::parse`: i64 value then compact-size prefixed pk_script. -/
def TxOutput.parse (l : List Byte) : Option (TxOutput × List Byte) := do
  let (v, l1) ← parseLE 8 l
  let (pk, l2) ← parse_compact_size_bytes l1
  return (⟨v, pk⟩, l2)

/-- Run a parser exactly `n` times, collecting the results. -/
def parseCount {α : Type} (p : List Byte → Option (α × List Byte)) :
    Nat → List Byte → Option (List α × List Byte)
  | 0, l => some ([], l)
  | n + 1, l => do
    let (a, l1) ← p l
    let (as, l2) ← parseCount p n l1
    return (a :: as, l2)

/-- `Vec::parse` of the buffer layer: a compact-size count followed by that
many elements. -/
def parseVec {α : Type} (p : List Byte → Option (α × List Byte))
    (l : List Byte) : Option (List α × List Byte) := do
  let (n, l1) ← parse_compact_size l
  parseCount p n l1

/-- `Transaction::parse`: version, inputs, outputs, lock_time; `raw` is the
span consumed between entry and exit cursors (`consumed_since`). -/
def Transaction.parse (l : List Byte) : Option (Transaction × List Byte) := do
  let (ver, l1) ← parseLE 4 l
  let (ins, l2) ← parseVec TxInput.parse l1
  let (outs, l3) ← parseVec TxOutput.parse l2
  let (lt, l4) ← parseLE 4 l3
  return ({ version := ver, txs_in := ins, txs_out := outs, lock_time := lt,
            raw := l.take (l.length - l4.length) }, l4)

/-! ### Shortest-form encoders (§4.1: encoders MUST use the shortest form) -/

/-- `w`-byte little-endian encoding of `v` (the low `8*w` bits). -/
def encodeLE : Nat → Nat → List Byte
  | 0, _ => []
  | w + 1, v => v % 256 :: encodeLE w (v / 256)

/-- Shortest-form compact-size encoding. -/
def encodeCS (n : Nat) : List Byte :=
  if n < 0xFD then [n]
  else if n < 2 ^ 16 then 0xFD :: encodeLE 2 n
  else if n < 2 ^ 32 then 0xFE :: encodeLE 4 n
  else 0xFF :: encodeLE 8 n

/-- Wire encoding of one input. -/
def TxInput.encode (i : TxInput) : List Byte :=
  i.prev_tx_out ++ encodeLE 4 i.prev_tx_out_idx ++
    encodeCS i.script.length ++ i.script ++ encodeLE 4 i.sequence

/-- Wire encoding of one output. -/
def TxOutput.encode (o : TxOutput) : List Byte :=
  encodeLE 8 o.value ++ encodeCS o.pk_script.length ++ o.pk_script

/-- Concatenation of the re-encoded fields of a transaction (shortest-form
compact sizes), ignoring the captured `raw` span. -/
def encodeFields (t : Transaction) : List Byte :=
  encodeLE 4 t.version ++
    encodeCS t.txs_in.length ++ (t.txs_in.map TxInput.encode).flatten ++
    encodeCS t.txs_out.length ++ (t.txs_out.map TxOutput.encode).flatten ++
    encodeLE 4 t.lock_time

/-- Field bounds under which an input is representable on the wire. -/
def TxInput.wf (i : TxInput) : Prop :=
  i.prev_tx_out.length = 32 ∧ i.prev_tx_out_idx < 2 ^ 32 ∧
    i.script.length < 2 ^ 64 ∧ i.sequence < 2 ^ 32

instance (i : TxInput) : Decidable i.wf := by unfold TxInput.wf; infer_instance

/-- Field bounds under which an output is representable on the wire. -/
def TxOutput.wf (o : TxOutput) : Prop :=
  o.value < 2 ^ 64 ∧ o.pk_script.length < 2 ^ 64

instance (o : TxOutput) : Decidable o.wf := by unfold TxOutput.wf; infer_instance

/-- Field bounds under which a transaction is representable on the wire. -/
def Transaction.wfFields (t : Transaction) : Prop :=
  t.version < 2 ^ 32 ∧ t.lock_time < 2 ^ 32 ∧
    t.txs_in.length < 2 ^ 64 ∧ t.txs_out.length < 2 ^ 64 ∧
    (∀ i ∈ t.txs_in, i.wf) ∧ (∀ o ∈ t.txs_out, o.wf)

instance (t : Transaction) : Decidable t.wfFields := by
  unfold Transaction.wfFields; infer_instance

/-! ### Validator (`transaction.rs`) -/

/-- `TransactionError` of `transaction.rs`. -/
inductive TransactionError where
  | UnexpectedEndOfData
  | TransactionTooLarge
  | NoInputs
  | NoOutputs
  | DuplicateInputs
  | OutputTransactionNotFound
  | OutputIndexNotFound
  | ScriptError (code : Int)
deriving DecidableEq, Repr

/-- `TransactionOk` of `transaction.rs`. -/
inductive TransactionOk where
  | AlreadyExists
  | VerifiedAndStored
deriving DecidableEq, Repr

instance {ε α : Type} [DecidableEq ε] [DecidableEq α] :
    DecidableEq (Except ε α) := fun a b => by
  cases a <;> cases b
  case error.error e f => exact decidable_of_iff (e = f) (by simp)
  case error.ok => exact .isFalse (by simp)
  case ok.error => exact .isFalse (by simp)
  case ok.ok x y => exact decidable_of_iff (x = y) (by simp)

/-- `MAX_TRANSACTION_SIZE` of `transaction.rs`. -/
def MAX_TRANSACTION_SIZE : Nat := 1000000

/-- The duplicate-input scan of `verify_syntax`:
`txs_in.iter().combinations(2).any(|pair| pair[0].prev_tx_out_idx == pair[1].prev_tx_out_idx && pair[0].prev_tx_out == pair[1].prev_tx_out)`.
`combinations(2)` enumerates every pair with the first element earlier in
the list. -/
def hasDuplicateInputs : List TxInput → Bool
  | [] => false
  | a :: rest =>
    rest.any (fun b =>
        a.prev_tx_out_idx == b.prev_tx_out_idx && a.prev_tx_out == b.prev_tx_out)
      || hasDuplicateInputs rest

/-- `Transaction::verify_syntax`: size bound, non-empty inputs, non-empty
outputs, then the duplicate-input scan, in that order. -/
def Transaction.verify_syntax (t : Transaction) : Except TransactionError Unit :=
  if t.raw.length > MAX_TRANSACTION_SIZE then .error .TransactionTooLarge
  else if t.txs_in.isEmpty then .error .NoInputs
  else if t.txs_out.isEmpty then .error .NoOutputs
  else if hasDuplicateInputs t.txs_in then .error .DuplicateInputs
  else .ok ()

/-- `Hash32::is_null` (modelled from the spec §3, `hash.rs` is not under
`src/`): a hash is null when all of its bytes are zero. -/
def isNullHash (h : List Byte) : Bool := h.all (fun b => b == 0)

/-- `Transaction::is_coinbase`: exactly one input whose previous-output hash
is null. -/
def Transaction.is_coinbase (t : Transaction) : Bool :=
  match t.txs_in with
  | [i] => isNullHash i.prev_tx_out
  | _ => false

/-! ### Store (modelled from the spec §3, `store.rs` is not under `src/`) -/

/-- Modelled from the spec: `block_content`, an append-only byte sink.
A write appends a blob and returns an opaque pointer; a read dereferences
the pointer to the bytes that were written. -/
structure BlockContent where
  blobs : List (List Byte)
deriving DecidableEq, Repr

/-- Modelled from the spec: append `bytes`, returning the new pointer and
the grown sink. -/
def BlockContent.write (bc : BlockContent) (bytes : List Byte) :
    Nat × BlockContent :=
  (bc.blobs.length, ⟨bc.blobs ++ [bytes]⟩)

/-- Modelled from the spec: dereference a pointer to the stored bytes. -/
def BlockContent.read (bc : BlockContent) (ptr : Nat) : List Byte :=
  (bc.blobs.get? ptr).getD []

/-- Modelled from the spec: `index`, a map from 32-byte hash to pointer. -/
structure Index where
  entries : List (List Byte × Nat)
deriving DecidableEq, Repr

/-- Modelled from the spec: hash lookup. -/
def Index.get (ix : Index) (h : List Byte) : Option Nat :=
  (ix.entries.find? (fun e => e.1 == h)).map Prod.snd

/-- Modelled from the spec: record `h ↦ p`. -/
def Index.set (ix : Index) (h : List Byte) (p : Nat) : Index :=
  ⟨(h, p) :: ix.entries⟩

/-- Modelled from the spec: the transaction store, block content plus index. -/
structure Store where
  block_content : BlockContent
  index : Index
deriving DecidableEq, Repr

/-- Modelled from the spec (§4.8, the `ffi` crate is not under `src/`):
the external script verifier
`bitcoin_verify_script(spending_tx_bytes, pk_script, input_index, flags) → i32`,
a pure function of its inputs. -/
abbrev ScriptVerifier := List Byte → List Byte → Nat → Nat → Int

/-- Modelled from the spec (§4.2, `hash.rs` is not under `src/`):
double-SHA-256, an external cryptographic primitive producing 32 bytes;
carried as an explicit function argument. -/
abbrev HashFn := List Byte → List Byte

/-- The body of the `verify_input_scripts` loop for the input at position
`i`: look the prev-hash up in the index (`OutputTransactionNotFound` when
absent), re-parse the stored transaction (`UnexpectedEndOfData` should the
stored bytes fail to parse, impossible for a store satisfying `wfStore`),
select the referenced output (`OutputIndexNotFound` when out of range), and
call the external verifier with flags 0; any result other than 1 is a
`ScriptError`. -/
def inputCheck (V : ScriptVerifier) (t : Transaction) (s : Store) (i : Nat)
    (input : TxInput) : Except TransactionError Unit :=
  match s.index.get input.prev_tx_out with
  | none => .error .OutputTransactionNotFound
  | some ptr =>
    match Transaction.parse (s.block_content.read ptr) with
    | none => .error .UnexpectedEndOfData
    | some (previous_tx, _) =>
      match previous_tx.txs_out.get? input.prev_tx_out_idx with
      | none => .error .OutputIndexNotFound
      | some previous_tx_out =>
        let result := V t.raw previous_tx_out.pk_script i 0
        if result ≠ 1 then .error (.ScriptError result) else .ok ()

/-- The `verify_input_scripts` loop over the enumerated inputs: run the
body on each input in position order, returning its first failure. -/
def checkInputsFrom (V : ScriptVerifier) (t : Transaction) (s : Store) :
    Nat → List TxInput → Except TransactionError Unit
  | _, [] => .ok ()
  | index, input :: rest =>
    match inputCheck V t s index input with
    | .error e => .error e
    | .ok () => checkInputsFrom V t s (index + 1) rest

/-- `Transaction::verify_input_scripts`. -/
def Transaction.verify_input_scripts (V : ScriptVerifier) (t : Transaction)
    (s : Store) : Except TransactionError Unit :=
  checkInputsFrom V t s 0 t.txs_in

/-- `Transaction::verify_and_store`: syntax checks, hash, `AlreadyExists`
short-circuit, input-script verification for non-coinbase transactions,
then the single write (content append + index insert). -/
def Transaction.verify_and_store (dsha : HashFn) (V : ScriptVerifier)
    (t : Transaction) (s : Store) :
    Except TransactionError TransactionOk × Store :=
  match t.verify_syntax with
  | .error e => (.error e, s)
  | .ok () =>
    match s.index.get (dsha t.raw) with
    | some _ => (.ok .AlreadyExists, s)
    | none =>
      match (if ¬ t.is_coinbase then t.verify_input_scripts V s else .ok ()) with
      | .error e => (.error e, s)
      | .ok () =>
        (.ok .VerifiedAndStored,
          { block_content := (s.block_content.write t.raw).2,
            index := s.index.set (dsha t.raw) (s.block_content.write t.raw).1 })

/-! ### Wire decoder (`net/src/parser.rs`)

The nom combinators are embedded as functions from the input byte list to a
three-way result mirroring `IResult`: `done` with the unconsumed input,
`incomplete` for `IResult::Incomplete`, and `error c` for `IResult::Error`,
where `c = some code` records a `ErrorKind::Custom(code)` and `c = none`
any other error kind. -/

/-- nom's `IResult`, with `Custom` error codes kept and all other error
kinds collapsed to `none`. -/
inductive PResult (α : Type) where
  | done (rest : List Byte) (val : α)
  | incomplete
  | error (custom : Option Nat)
deriving DecidableEq, Repr

/-- A nom-style parser over a byte list. -/
abbrev NParser (α : Type) := List Byte → PResult α

/-- Sequencing of nom parsers (the `>>` chain inside `do_parse!`). -/
def nbind {α β : Type} (p : NParser α) (f : α → NParser β) : NParser β :=
  fun l =>
    match p l with
    | .done r v => f v r
    | .incomplete => .incomplete
    | .error e => .error e

/-- The trivial parser producing a value without consuming input. -/
def ndone {α : Type} (a : α) : NParser α := fun l => .done l a

/-- nom's `take!(n)`: `n` bytes, or incomplete. -/
def ntake (n : Nat) : NParser (List Byte) :=
  fun l => if n ≤ l.length then .done (l.drop n) (l.take n) else .incomplete

/-- nom's `le_u16`/`le_u32`/`le_u64`/`le_i32`/`le_i64` family: `w` bytes as a
little-endian integer (signed fields carried as their bit pattern). -/
def nLE (w : Nat) : NParser Nat :=
  nbind (ntake w) (fun bs => ndone (leNat bs))

/-- nom's `be_u16` (used for ports). -/
def nBE16 : NParser Nat :=
  nbind (ntake 2) (fun bs => ndone (beNat bs))

/-- `compact_size` = `alt!(i9 | i5 | i3 | i)`: the `0xFF`/`0xFE`/`0xFD` tags
announce 8/4/2-byte little-endian integers, any other first byte is the
value itself; an empty input or a short tagged integer is incomplete. -/
def ncompact : NParser Nat :=
  fun l =>
    match l with
    | [] => .incomplete
    | b :: rest =>
      if b = 0xFF then nLE 8 rest
      else if b = 0xFE then nLE 4 rest
      else if b = 0xFD then nLE 2 rest
      else .done rest b

/-- nom's `count!(p, n)`: run `p` exactly `n` times. -/
def ncount {α : Type} (p : NParser α) : Nat → NParser (List α)
  | 0 => ndone []
  | n + 1 => nbind p (fun a => nbind (ncount p n) (fun as => ndone (a :: as)))

/-- The `Network` enum of `parser.rs`. -/
inductive NetworkM where
  | Main
  | Test
deriving DecidableEq, Repr

/-- Does the input start with a 4-byte magic tag?
Main `F9 BE B4 D9`, Test `FA BF B5 DA`. -/
def isMagicTag : List Byte → Option NetworkM
  | a :: b :: c :: d :: _ =>
    if a = 0xF9 ∧ b = 0xBE ∧ c = 0xB4 ∧ d = 0xD9 then some .Main
    else if a = 0xFA ∧ b = 0xBF ∧ c = 0xB5 ∧ d = 0xDA then some .Test
    else none
  | _ => none

/-- `search_header`: scan all 4-byte windows for the first magic tag,
returning the offset just past it together with the network. -/
def searchHeader : List Byte → Option (Nat × NetworkM)
  | [] => none
  | a :: rest =>
    match isMagicTag (a :: rest) with
    | some net => some (4, net)
    | none => (searchHeader rest).map (fun p => (p.1 + 1, p.2))

/-- The `magic` parser: resynchronize at the first magic tag, discarding
the bytes before it; incomplete when no tag occurs. -/
def magicP : NParser NetworkM :=
  fun l =>
    match searchHeader l with
    | some (i, net) => .done (l.drop i) net
    | none => .incomplete

/-- UTF-8 validity of a byte list (RFC 3629), the check performed by nom's
`take_str!` via `str::from_utf8`. -/
def validUtf8 : List Byte → Bool
  | [] => true
  | b :: rest =>
    if b ≤ 0x7F then validUtf8 rest
    else if 0xC2 ≤ b ∧ b ≤ 0xDF then
      match rest with
      | c :: r => (0x80 ≤ c && c ≤ 0xBF) && validUtf8 r
      | [] => false
    else if b = 0xE0 then
      match rest with
      | c :: d :: r => (0xA0 ≤ c && c ≤ 0xBF) && (0x80 ≤ d && d ≤ 0xBF) && validUtf8 r
      | _ => false
    else if (0xE1 ≤ b ∧ b ≤ 0xEC) ∨ b = 0xEE ∨ b = 0xEF then
      match rest with
      | c :: d :: r => (0x80 ≤ c && c ≤ 0xBF) && (0x80 ≤ d && d ≤ 0xBF) && validUtf8 r
      | _ => false
    else if b = 0xED then
      match rest with
      | c :: d :: r => (0x80 ≤ c && c ≤ 0x9F) && (0x80 ≤ d && d ≤ 0xBF) && validUtf8 r
      | _ => false
    else if b = 0xF0 then
      match rest with
      | c :: d :: e :: r =>
        (0x90 ≤ c && c ≤ 0xBF) && (0x80 ≤ d && d ≤ 0xBF) && (0x80 ≤ e && e ≤ 0xBF) && validUtf8 r
      | _ => false
    else if 0xF1 ≤ b ∧ b ≤ 0xF3 then
      match rest with
      | c :: d :: e :: r =>
        (0x80 ≤ c && c ≤ 0xBF) && (0x80 ≤ d && d ≤ 0xBF) && (0x80 ≤ e && e ≤ 0xBF) && validUtf8 r
      | _ => false
    else if b = 0xF4 then
      match rest with
      | c :: d :: e :: r =>
        (0x80 ≤ c && c ≤ 0x8F) && (0x80 ≤ d && d ≤ 0xBF) && (0x80 ≤ e && e ≤ 0xBF) && validUtf8 r
      | _ => false
    else false

/-- nom's `take_str!(n)`: `n` bytes checked to be valid UTF-8 (kept as
bytes); invalid UTF-8 is a (non-custom) error. -/
def take_str (n : Nat) : NParser (List Byte) :=
  fun l =>
    if n ≤ l.length then
      if validUtf8 (l.take n) then .done (l.drop n) (l.take n) else .error none
    else .incomplete

/-- `str::trim_matches(0x00 as char)` on the command field: remove NUL
bytes from BOTH ends (leading and trailing). -/
def trimNulls (l : List Byte) : List Byte :=
  (((l.dropWhile (fun b => b == 0)).reverse.dropWhile (fun b => b == 0)).reverse)

/-- Modelled from the spec's words for the command field: remove only the
TRAILING NUL bytes (`command: ASCII string trimmed of trailing NULs`);
used to compare the spec's description against the code's `trim_matches`. -/
def spec_trimTrailingNuls (l : List Byte) : List Byte :=
  (l.reverse.dropWhile (fun b => b == 0)).reverse

/-- The `Header` struct of `parser.rs`: network, trimmed command, payload
length and checksum. -/
structure HeaderM where
  network : NetworkM
  message_type : List Byte
  len : Nat
  checksum : List Byte
deriving DecidableEq, Repr

/-- The `RawMessage` struct of `parser.rs`: a framed envelope. -/
structure RawMsg where
  network : NetworkM
  message_type : List Byte
  len : Nat
  checksum : List Byte
  body : List Byte
deriving DecidableEq, Repr

/-- The `header` parser: magic resynchronization, 12 command bytes
(`take_str!(12)` then `trim_matches(0x00 as char)`), 4-byte LE payload
length, 4 checksum bytes. -/
def headerP : NParser HeaderM :=
  nbind magicP (fun net =>
  nbind (take_str 12) (fun cmd =>
  nbind (nLE 4) (fun len =>
  nbind (ntake 4) (fun chk =>
  ndone ⟨net, trimNulls cmd, len, chk⟩))))

/-- The `raw_message` parser: a header followed by `len` body bytes. -/
def rawMessageP : NParser RawMsg :=
  nbind headerP (fun h =>
  nbind (ntake h.len) (fun body =>
  ndone ⟨h.network, h.message_type, h.len, h.checksum, body⟩))

/-- `RawMessage::valid`: the stored checksum equals the first 4 bytes of
the double-SHA-256 of the body. -/
def RawMsg.valid (dsha : HashFn) (rm : RawMsg) : Bool :=
  (dsha rm.body).take 4 == rm.checksum

/-- `NetAddr`: optional time, services, IPv6 address (eight big-endian
16-bit groups) and big-endian port. -/
structure NetAddrM where
  time : Option Nat
  services : Nat
  ip : List Nat
  port : Nat
deriving DecidableEq, Repr

/-- `BlockHeader`. -/
structure BlockHeaderM where
  version : Nat
  prev_block : List Byte
  merkle_root : List Byte
  timestamp : Nat
  bits : Nat
  nonce : Nat
  txn_count : Nat
deriving DecidableEq, Repr

/-- `InventoryVector`. -/
structure InvVector where
  flags : Nat
  hash : List Byte
deriving DecidableEq, Repr

/-- `VersionMessage`. -/
structure VersionMsg where
  version : Nat
  services : Nat
  timestamp : Nat
  addr_recv : NetAddrM
  addr_send : NetAddrM
  nonce : Nat
  user_agent : List Byte
  start_height : Nat
  relay : Bool
deriving DecidableEq, Repr

/-- `GetblocksMessage` / `GetheadersMessage`. -/
structure GetBMsg where
  version : Nat
  locator_hashes : List (List Byte)
  hash_stop : List Byte
deriving DecidableEq, Repr

/-- The `Message` enum of the net crate (decoded payload variants). -/
inductive Message where
  | Version (v : VersionMsg)
  | Verack
  | SendHeaders
  | GetData (inventory : List InvVector)
  | GetBlocks (g : GetBMsg)
  | GetHeaders (g : GetBMsg)
  | SendCompact (send_compact : Bool) (version : Nat)
  | FeeFilter (feefilter : Nat)
  | Ping (nonce : Nat)
  | Pong (nonce : Nat)
  | Addr (addrs : List NetAddrM)
  | Header (count : Nat) (headers : List BlockHeaderM)
  | Inv (inventory : List InvVector)
  | BitcrustPeerCountRequest (nonce signature : List Byte)
  | BitcrustPeerCount (count : Nat)
  | Unparsed (command : List Byte) (body : List Byte)
deriving DecidableEq, Repr

/-- ASCII bytes of a literal command name. -/
def ascii (s : String) : List Byte := s.data.map Char.toNat

/-- `ipv6`: eight big-endian 16-bit groups. -/
def ipv6P : NParser (List Nat) := ncount nBE16 8

/-- `version_net_addr`: services, IPv6, port (no time field). -/
def version_net_addrP : NParser NetAddrM :=
  nbind (nLE 8) (fun services =>
  nbind ipv6P (fun ip =>
  nbind nBE16 (fun port =>
  ndone ⟨none, services, ip, port⟩)))

/-- `net_addr`: 32-bit time, services, IPv6, port. -/
def net_addrP : NParser NetAddrM :=
  nbind (nLE 4) (fun time =>
  nbind (nLE 8) (fun services =>
  nbind ipv6P (fun ip =>
  nbind nBE16 (fun port =>
  ndone ⟨some time, services, ip, port⟩))))

/-- `variable_str`: compact-size length then that many bytes (the lossy
UTF-8 conversion keeps the bytes; they are carried verbatim here). -/
def variable_strP : NParser (List Byte) :=
  nbind ncompact (fun len => ntake len)

/-- Signed `i32` reading of a little-endian bit pattern `v < 2^32`:
the relay byte of `version` is present iff `version >= 70001` as `i32`. -/
def i32ge (v bound : Nat) : Prop := bound ≤ v ∧ v < 2 ^ 31

instance (v bound : Nat) : Decidable (i32ge v bound) := by
  unfold i32ge; infer_instance

/-- `version`: the version handshake payload. -/
def versionP : NParser Message :=
  nbind (nLE 4) (fun version =>
  nbind (nLE 8) (fun services =>
  nbind (nLE 8) (fun timestamp =>
  nbind version_net_addrP (fun addr_recv =>
  nbind version_net_addrP (fun addr_send =>
  nbind (nLE 8) (fun nonce =>
  nbind variable_strP (fun user_agent =>
  nbind (nLE 4) (fun start =>
  nbind (fun l => if i32ge version 70001
                  then nbind (ntake 1) (fun b => ndone (some b)) l
                  else .done l none)
    (fun relay =>
  ndone (.Version ⟨version, services, timestamp, addr_recv, addr_send, nonce,
                   user_agent, start, relay == some [1]⟩))))))))))

/-- `inv_vector`: flags then a 32-byte hash. -/
def inv_vectorP : NParser InvVector :=
  nbind (nLE 4) (fun flags =>
  nbind (ntake 32) (fun h =>
  ndone ⟨flags, h⟩))

/-- `inv`. -/
def invP : NParser Message :=
  nbind ncompact (fun count =>
  nbind (ncount inv_vectorP count) (fun inventory =>
  ndone (.Inv inventory)))

/-- `getdata`. -/
def getdataP : NParser Message :=
  nbind ncompact (fun count =>
  nbind (ncount inv_vectorP count) (fun inventory =>
  ndone (.GetData inventory)))

/-- `block_header`. -/
def block_headerP : NParser BlockHeaderM :=
  nbind (nLE 4) (fun version =>
  nbind (ntake 32) (fun prev =>
  nbind (ntake 32) (fun merkle =>
  nbind (nLE 4) (fun timestamp =>
  nbind (nLE 4) (fun bits =>
  nbind (nLE 4) (fun nonce =>
  nbind ncompact (fun txn_count =>
  ndone ⟨version, prev, merkle, timestamp, bits, nonce, txn_count⟩)))))))

/-- `headers`. -/
def headersP : NParser Message :=
  nbind ncompact (fun count =>
  nbind (ncount block_headerP count) (fun hs =>
  ndone (.Header count hs)))

/-- `getheaders`. -/
def getheadersP : NParser Message :=
  nbind (nLE 4) (fun version =>
  nbind ncompact (fun count =>
  nbind (ncount (ntake 32) count) (fun hashes =>
  nbind (ntake 32) (fun hash_stop =>
  ndone (.GetHeaders ⟨version, hashes, hash_stop⟩)))))

/-- `getblocks`. -/
def getblocksP : NParser Message :=
  nbind (nLE 4) (fun version =>
  nbind ncompact (fun count =>
  nbind (ncount (ntake 32) count) (fun hashes =>
  nbind (ntake 32) (fun hash_stop =>
  ndone (.GetBlocks ⟨version, hashes, hash_stop⟩)))))

/-- `send_compact`: one flag byte then a u64 version; the flag is true iff
the byte slice equals `[1]`. -/
def send_compactP : NParser Message :=
  nbind (ntake 1) (fun sc =>
  nbind (nLE 8) (fun version =>
  ndone (.SendCompact (sc == [1]) version)))

/-- `feefilter`. -/
def feefilterP : NParser Message :=
  nbind (nLE 8) (fun fee => ndone (.FeeFilter fee))

/-- `ping`. -/
def pingP : NParser Message :=
  nbind (nLE 8) (fun nonce => ndone (.Ping nonce))

/-- `pong`. -/
def pongP : NParser Message :=
  nbind (nLE 8) (fun nonce => ndone (.Pong nonce))

/-- `addr`. -/
def addrP : NParser Message :=
  nbind ncompact (fun count =>
  nbind (ncount net_addrP count) (fun list =>
  ndone (.Addr list)))

/-- `bcr_pcr`: 8 nonce bytes then a 32-byte signature. -/
def bcr_pcrP : NParser Message :=
  nbind (ntake 8) (fun nonce =>
  nbind (ntake 32) (fun signature =>
  ndone (.BitcrustPeerCountRequest nonce signature)))

/-- `bcr_pc`: u64 peer count. -/
def bcr_pcP : NParser Message :=
  nbind (nLE 8) (fun count => ndone (.BitcrustPeerCount count))

/-- The command dispatch of `message`: per-command parsers run on the body
(their leftover is the body's leftover); `verack`/`sendheaders` answer with
the outer rest `i`, and unknown commands are yielded opaquely. -/
def dispatchP (i : List Byte) (rm : RawMsg) : PResult Message :=
  if rm.message_type = ascii "version" then versionP rm.body
  else if rm.message_type = ascii "verack" then .done i .Verack
  else if rm.message_type = ascii "sendheaders" then .done i .SendHeaders
  else if rm.message_type = ascii "getdata" then getdataP rm.body
  else if rm.message_type = ascii "getblocks" then getblocksP rm.body
  else if rm.message_type = ascii "getheaders" then getheadersP rm.body
  else if rm.message_type = ascii "sendcmpct" then send_compactP rm.body
  else if rm.message_type = ascii "feefilter" then feefilterP rm.body
  else if rm.message_type = ascii "ping" then pingP rm.body
  else if rm.message_type = ascii "pong" then pongP rm.body
  else if rm.message_type = ascii "addr" then addrP rm.body
  else if rm.message_type = ascii "headers" then headersP rm.body
  else if rm.message_type = ascii "inv" then invP rm.body
  else if rm.message_type = ascii "bcr_pcr" then bcr_pcrP rm.body
  else if rm.message_type = ascii "bcr_pc" then bcr_pcP rm.body
  else .done i (.Unparsed rm.message_type rm.body)

/-- The `message` entry point: frame a raw message, validate the checksum
(the failure code is `Custom(len + 20)`, u32 arithmetic), then hand the
envelope to the command dispatch. -/
def messageP (dsha : HashFn) (l : List Byte) : PResult Message :=
  match rawMessageP l with
  | .done i rm =>
    if ¬ rm.valid dsha then .error (some ((rm.len + 20) % 2 ^ 32))
    else dispatchP i rm
  | .incomplete => .incomplete
  | .error e => .error e

/-- A parser never failing with a `Custom` error code. -/
def NoCustom {α : Type} (p : NParser α) : Prop :=
  ∀ l c, p l ≠ .error (some c)

/-- The store invariant (§3): every indexed pointer dereferences to bytes
that parse as a transaction. -/
def wfStore (s : Store) : Prop :=
  ∀ e ∈ s.index.entries, (Transaction.parse (s.block_content.read e.2)).isSome

instance (s : Store) : Decidable (wfStore s) := by
  unfold wfStore; infer_instance

/-- Two inputs referencing the same previous output. -/
def samePrevOut (a b : TxInput) : Prop :=
  a.prev_tx_out_idx = b.prev_tx_out_idx ∧ a.prev_tx_out = b.prev_tx_out

instance (a b : TxInput) : Decidable (samePrevOut a b) := by
  unfold samePrevOut; infer_instance

/-! ### Concrete material used by witnesses and counterexamples -/

/-- A stand-in hash function used to instantiate the external double-SHA-256
contract on concrete inputs. -/
def dsha0 : HashFn := fun _ => List.replicate 32 0

/-- A script verifier accepting every script. -/
def verifierOk : ScriptVerifier := fun _ _ _ _ => 1

/-- Field content of a small coinbase transaction. -/
def cbTx0 : Transaction :=
  { version := 1,
    txs_in := [⟨List.replicate 32 0, 0, [], 0⟩],
    txs_out := [⟨50, []⟩],
    lock_time := 0,
    raw := [] }

/-- The coinbase transaction with its consistent raw span. -/
def cbTx : Transaction := { cbTx0 with raw := encodeFields cbTx0 }

/-- The empty store. -/
def store0 : Store := ⟨⟨[]⟩, ⟨[]⟩⟩

/-- The store after `cbTx` has been verified and stored into `store0`. -/
def store1 : Store := (Transaction.verify_and_store dsha0 verifierOk cbTx store0).2

/-- A transaction byte string whose input count uses the non-shortest
compact-size form `FD 01 00` instead of `01`. -/
def bNC : List Byte :=
  encodeLE 4 1 ++ [0xFD, 0x01, 0x00] ++
    TxInput.encode ⟨List.replicate 32 0, 0, [], 0⟩ ++ [0x01] ++
    TxOutput.encode ⟨50, []⟩ ++ encodeLE 4 0

/-- The transaction encoded (non-canonically) by `bNC`. -/
def tNC : Transaction :=
  { version := 1,
    txs_in := [⟨List.replicate 32 0, 0, [], 0⟩],
    txs_out := [⟨50, []⟩],
    lock_time := 0,
    raw := bNC }

/-- An input used twice to build a duplicate-input transaction. -/
def dupIn : TxInput := ⟨List.replicate 32 0xAA, 0, [], 0⟩

/-- Field content of a transaction with two identical inputs and no outputs. -/
def tDup0 : Transaction :=
  { version := 1, txs_in := [dupIn, dupIn], txs_out := [], lock_time := 0, raw := [] }

/-- The duplicate-input, no-output transaction with its consistent raw span. -/
def tDup : Transaction := { tDup0 with raw := encodeFields tDup0 }

/-- Field content of a transaction with two identical inputs and one
output. -/
def tDupOk0 : Transaction :=
  { version := 1, txs_in := [dupIn, dupIn], txs_out := [⟨50, []⟩],
    lock_time := 0, raw := [] }

/-- The duplicate-input transaction with an output and consistent raw. -/
def tDupOk : Transaction := { tDupOk0 with raw := encodeFields tDupOk0 }

/-- A complete `verack` envelope whose checksum matches `dsha0 []`. -/
def verackFrame : List Byte :=
  [0xF9, 0xBE, 0xB4, 0xD9] ++ ascii "verack" ++ List.replicate 6 0 ++
    [0, 0, 0, 0] ++ [0, 0, 0, 0]

/-- The same `verack` envelope with a corrupted checksum. -/
def badChecksumFrame : List Byte :=
  [0xF9, 0xBE, 0xB4, 0xD9] ++ ascii "verack" ++ List.replicate 6 0 ++
    [0, 0, 0, 0] ++ [1, 2, 3, 4]

/-- A one-byte noise sequence containing no magic tag: the first magic
byte alone. -/
def pCx : List Byte := [0xF9]

/-- The `verack` frame with its first byte missing: contains no magic tag,
but appending it to `pCx` completes the frame. -/
def iCx : List Byte := verackFrame.drop 1

/-- A 12-byte command field with a leading NUL: `\0a` padded with NULs. -/
def cmdCx : List Byte := [0x00, 0x61] ++ List.replicate 10 0

/-- A 24-byte envelope header whose command field is `cmdCx`. -/
def hdrCx : List Byte :=
  [0xF9, 0xBE, 0xB4, 0xD9] ++ cmdCx ++ [0, 0, 0, 0] ++ [5, 6, 7, 8]

/-- Bytes of a stored transaction (used to populate a well-formed store). -/
def storedTxBytes : List Byte := encodeFields cbTx0

/-- A hash key under which `storedTxBytes` is indexed. -/
def h0 : List Byte := List.replicate 32 1

/-- A store holding one parseable transaction under key `h0`. -/
def storeC6 : Store := ⟨⟨[storedTxBytes]⟩, ⟨[(h0, 0)]⟩⟩

/-- A transaction spending output 0 of the transaction stored under `h0`. -/
def spendTx : Transaction :=
  { version := 1, txs_in := [⟨h0, 0, [], 0⟩], txs_out := [⟨1, []⟩],
    lock_time := 0, raw := [1, 2, 3] }

/-- A 9-byte `sendcmpct` payload: flag byte 1, version 2. -/
def scBody : List Byte := [1, 2, 0, 0, 0, 0, 0, 0, 0]

/-! ## Round-trip lemmas for the transaction codec -/

theorem encodeLE_length (w v : Nat) : (encodeLE w v).length = w := by
  induction w generalizing v with
  | zero => rfl
  | succ w ih => simp [encodeLE, ih]

theorem leNat_encodeLE (w v : Nat) (h : v < 2 ^ (8 * w)) :
    leNat (encodeLE w v) = v := by
  induction w generalizing v with
  | zero =>
    simp only [Nat.mul_zero, pow_zero, Nat.lt_one_iff] at h
    simp [encodeLE, leNat, h]
  | succ w ih =>
    have h256 : (2 : Nat) ^ (8 * (w + 1)) = 2 ^ (8 * w) * 256 := by
      rw [Nat.mul_succ, pow_add]; norm_num
    have hdiv : v / 256 < 2 ^ (8 * w) := by
      rw [Nat.div_lt_iff_lt_mul (by norm_num : (0 : Nat) < 256)]
      omega
    simp [encodeLE, leNat, ih _ hdiv]
    omega

theorem readBytes_exact {n : Nat} {pre rest : List Byte} (h : pre.length = n) :
    readBytes n (pre ++ rest) = some (pre, rest) := by
  unfold readBytes
  rw [if_pos (by simp [List.length_append]; omega)]
  rw [List.take_left' h, List.drop_left' h]

theorem parseLE_encode {w v : Nat} (r : List Byte) (h : v < 2 ^ (8 * w)) :
    parseLE w (encodeLE w v ++ r) = some (v, r) := by
  unfold parseLE
  rw [readBytes_exact (encodeLE_length w v)]
  simp [leNat_encodeLE w v h]

theorem parse_compact_size_encode {n : Nat} (r : List Byte) (h : n < 2 ^ 64) :
    parse_compact_size (encodeCS n ++ r) = some (n, r) := by
  unfold encodeCS
  by_cases h1 : n < 0xFD
  · simp [h1, parse_compact_size]
  · by_cases h2 : n < 2 ^ 16
    · simp only [if_neg h1, if_pos h2, List.cons_append, parse_compact_size]
      norm_num
      exact parseLE_encode r (by norm_num at h2 ⊢; omega)
    · by_cases h3 : n < 2 ^ 32
      · simp only [if_neg h1, if_neg h2, if_pos h3, List.cons_append, parse_compact_size]
        norm_num
        exact parseLE_encode r (by norm_num at h3 ⊢; omega)
      · simp only [if_neg h1, if_neg h2, if_neg h3, List.cons_append, parse_compact_size]
        norm_num
        exact parseLE_encode r (by norm_num at h ⊢; omega)

theorem parse_compact_size_bytes_encode {s : List Byte} (r : List Byte)
    (h : s.length < 2 ^ 64) :
    parse_compact_size_bytes (encodeCS s.length ++ s ++ r) = some (s, r) := by
  unfold parse_compact_size_bytes
  rw [List.append_assoc, parse_compact_size_encode (s ++ r) h]
  exact readBytes_exact rfl

theorem txInput_parse_encode {i : TxInput} (r : List Byte) (h : i.wf) :
    TxInput.parse (i.encode ++ r) = some (i, r) := by
  obtain ⟨h32, hidx, hscr, hseq⟩ := h
  simp only [TxInput.parse, TxInput.encode, List.append_assoc]
  rw [readBytes_exact h32]
  simp only [Option.bind_eq_bind, Option.some_bind]
  rw [parseLE_encode _ (by norm_num at hidx ⊢; omega)]
  simp only [Option.some_bind]
  rw [← List.append_assoc (encodeCS i.script.length), parse_compact_size_bytes_encode _ hscr]
  simp only [Option.some_bind]
  rw [parseLE_encode _ (by norm_num at hseq ⊢; omega)]
  rfl

theorem txOutput_parse_encode {o : TxOutput} (r : List Byte) (h : o.wf) :
    TxOutput.parse (o.encode ++ r) = some (o, r) := by
  obtain ⟨hv, hpk⟩ := h
  simp only [TxOutput.parse, TxOutput.encode, List.append_assoc]
  rw [parseLE_encode _ (by norm_num at hv ⊢; omega)]
  simp only [Option.bind_eq_bind, Option.some_bind]
  rw [← List.append_assoc (encodeCS o.pk_script.length),
    parse_compact_size_bytes_encode _ hpk]
  rfl

theorem parseCount_encode {α : Type} {p : List Byte → Option (α × List Byte)}
    {enc : α → List Byte} (l : List α) (r : List Byte)
    (hp : ∀ a ∈ l, ∀ r', p (enc a ++ r') = some (a, r')) :
    parseCount p l.length ((l.map enc).flatten ++ r) = some (l, r) := by
  induction l with
  | nil => simp [parseCount]
  | cons a as ih =>
    simp only [List.map_cons, List.flatten_cons, List.length_cons, parseCount,
      List.append_assoc]
    rw [hp a (by simp)]
    simp only [Option.bind_eq_bind, Option.some_bind]
    rw [ih (fun x hx r' => hp x (by simp [hx]) r')]
    rfl

theorem parseVec_encode {α : Type} {p : List Byte → Option (α × List Byte)}
    {enc : α → List Byte} (l : List α) (r : List Byte) (hlen : l.length < 2 ^ 64)
    (hp : ∀ a ∈ l, ∀ r', p (enc a ++ r') = some (a, r')) :
    parseVec p (encodeCS l.length ++ ((l.map enc).flatten ++ r)) = some (l, r) := by
  simp only [parseVec]
  rw [parse_compact_size_encode _ hlen]
  simp only [Option.bind_eq_bind, Option.some_bind]
  exact parseCount_encode l r hp

theorem Transaction.parse_encodeFields (t : Transaction) (h : t.wfFields) :
    Transaction.parse (encodeFields t) = some ({ t with raw := encodeFields t }, []) := by
  obtain ⟨hver, hlock, hins, houts, hwin, hwout⟩ := h
  have hmain : ∀ r, Transaction.parse (encodeFields t ++ r)
      = some (⟨t.version, t.txs_in, t.txs_out, t.lock_time,
          (encodeFields t ++ r).take ((encodeFields t ++ r).length - r.length)⟩, r) := by
    intro r
    simp only [Transaction.parse, encodeFields, List.append_assoc]
    rw [parseLE_encode _ (by norm_num at hver ⊢; omega)]
    simp only [Option.bind_eq_bind, Option.some_bind]
    rw [parseVec_encode t.txs_in _ hins
      (fun a ha r' => txInput_parse_encode r' (hwin a ha))]
    simp only [Option.some_bind]
    rw [parseVec_encode t.txs_out _ houts
      (fun a ha r' => txOutput_parse_encode r' (hwout a ha))]
    simp only [Option.some_bind]
    rw [parseLE_encode _ (by norm_num at hlock ⊢; omega)]
    simp only [Option.some_bind]
    rfl
  have h2 := hmain []
  simp only [List.append_nil, List.length_nil, Nat.sub_zero, List.take_length] at h2
  rw [h2]

/-! ## The unconsumed input of every parser is a suffix of its input -/

theorem readBytes_suffix {n : Nat} {l a rest : List Byte}
    (h : readBytes n l = some (a, rest)) : rest <:+ l := by
  unfold readBytes at h
  split at h
  · simp only [Option.some.injEq, Prod.mk.injEq] at h
    exact h.2 ▸ List.drop_suffix n l
  · exact absurd h (by simp)

theorem parseLE_suffix {w : Nat} {l : List Byte} {v : Nat} {rest : List Byte}
    (h : parseLE w l = some (v, rest)) : rest <:+ l := by
  unfold parseLE at h
  cases hr : readBytes w l with
  | none => rw [hr] at h; simp at h
  | some p =>
    obtain ⟨a, b⟩ := p
    rw [hr] at h
    simp only [Option.map_some', Option.some.injEq, Prod.mk.injEq] at h
    exact h.2 ▸ readBytes_suffix hr

theorem parse_compact_size_suffix {l : List Byte} {v : Nat} {rest : List Byte}
    (h : parse_compact_size l = some (v, rest)) : rest <:+ l := by
  match l with
  | [] => simp [parse_compact_size] at h
  | b :: rest0 =>
    simp only [parse_compact_size] at h
    split_ifs at h with h1 h2 h3
    · simp only [Option.some.injEq, Prod.mk.injEq] at h
      exact h.2 ▸ List.suffix_cons b rest0
    · exact (parseLE_suffix h).trans (List.suffix_cons b rest0)
    · exact (parseLE_suffix h).trans (List.suffix_cons b rest0)
    · exact (parseLE_suffix h).trans (List.suffix_cons b rest0)

theorem parse_compact_size_bytes_suffix {l s rest : List Byte}
    (h : parse_compact_size_bytes l = some (s, rest)) : rest <:+ l := by
  unfold parse_compact_size_bytes at h
  cases hc : parse_compact_size l with
  | none => rw [hc] at h; simp at h
  | some p =>
    obtain ⟨n, r1⟩ := p
    rw [hc] at h
    exact (readBytes_suffix h).trans (parse_compact_size_suffix hc)

theorem txInput_parse_suffix {l : List Byte} {i : TxInput} {rest : List Byte}
    (h : TxInput.parse l = some (i, rest)) : rest <:+ l := by
  simp only [TxInput.parse, Option.bind_eq_bind, Option.bind_eq_some] at h
  obtain ⟨⟨hb, l1⟩, h1, ⟨idx, l2⟩, h2, ⟨scr, l3⟩, h3, ⟨seq, l4⟩, h4, hfin⟩ := h
  simp only [Option.pure_def, Option.some.injEq, Prod.mk.injEq] at hfin
  have : rest = l4 := hfin.2.symm
  subst this
  exact (((parseLE_suffix h4).trans (parse_compact_size_bytes_suffix h3)).trans
    (parseLE_suffix h2)).trans (readBytes_suffix h1)

theorem txOutput_parse_suffix {l : List Byte} {o : TxOutput} {rest : List Byte}
    (h : TxOutput.parse l = some (o, rest)) : rest <:+ l := by
  simp only [TxOutput.parse, Option.bind_eq_bind, Option.bind_eq_some] at h
  obtain ⟨⟨v, l1⟩, h1, ⟨pk, l2⟩, h2, hfin⟩ := h
  simp only [Option.pure_def, Option.some.injEq, Prod.mk.injEq] at hfin
  have : rest = l2 := hfin.2.symm
  subst this
  exact (parse_compact_size_bytes_suffix h2).trans (parseLE_suffix h1)

theorem parseCount_suffix {α : Type} {p : List Byte → Option (α × List Byte)}
    (hp : ∀ {l a rest}, p l = some (a, rest) → rest <:+ l) :
    ∀ {n : Nat} {l : List Byte} {as : List α} {rest : List Byte},
      parseCount p n l = some (as, rest) → rest <:+ l := by
  intro n
  induction n with
  | zero =>
    intro l as rest h
    simp only [parseCount, Option.some.injEq, Prod.mk.injEq] at h
    exact h.2 ▸ List.suffix_refl l
  | succ n ih =>
    intro l as rest h
    simp only [parseCount, Option.bind_eq_bind, Option.bind_eq_some] at h
    obtain ⟨⟨a, l1⟩, h1, ⟨as2, l2⟩, h2, hfin⟩ := h
    simp only [Option.pure_def, Option.some.injEq, Prod.mk.injEq] at hfin
    have : rest = l2 := hfin.2.symm
    subst this
    exact (ih h2).trans (hp h1)

theorem parseVec_suffix {α : Type} {p : List Byte → Option (α × List Byte)}
    (hp : ∀ {l a rest}, p l = some (a, rest) → rest <:+ l)
    {l : List Byte} {as : List α} {rest : List Byte}
    (h : parseVec p l = some (as, rest)) : rest <:+ l := by
  simp only [parseVec, Option.bind_eq_bind, Option.bind_eq_some] at h
  obtain ⟨⟨n, l1⟩, h1, h2⟩ := h
  exact (parseCount_suffix hp h2).trans (parse_compact_size_suffix h1)

/-- Structure of a successful `Transaction::parse`: the unconsumed input is
a suffix and `raw` is exactly the consumed span, so `raw ++ rest` restores
the input. -/
theorem Transaction.parse_raw_append {l : List Byte} {t : Transaction}
    {rest : List Byte} (h : Transaction.parse l = some (t, rest)) :
    t.raw ++ rest = l := by
  simp only [Transaction.parse, Option.bind_eq_bind, Option.bind_eq_some] at h
  obtain ⟨⟨ver, l1⟩, h1, ⟨ins, l2⟩, h2, ⟨outs, l3⟩, h3, ⟨lt, l4⟩, h4, hfin⟩ := h
  simp only [Option.pure_def, Option.some.injEq, Prod.mk.injEq] at hfin
  have hrest : rest = l4 := hfin.2.symm
  have hraw : t.raw = l.take (l.length - l4.length) := by rw [← hfin.1]
  subst hrest
  have hsuf : rest <:+ l :=
    (((parseLE_suffix h4).trans (parseVec_suffix
        (fun h' => txOutput_parse_suffix h') h3)).trans
      (parseVec_suffix (fun h' => txInput_parse_suffix h') h2)).trans
      (parseLE_suffix h1)
  obtain ⟨pre, hpre⟩ := hsuf
  have hlen : l.length - rest.length = pre.length := by
    rw [← hpre, List.length_append]; omega
  rw [hraw, hlen, ← hpre, List.take_left]

/-! ## Claim C3 -/

/-- **C3** (amended).  Whenever a byte string `b` fully parses as a
transaction, the captured raw span equals `b` exactly; and every byte
string that is the shortest-form (canonical) serialization of a
transaction's fields parses fully, with the raw span equal both to the
input and to the concatenation of the parsed fields' re-encodings.  (For a
fully-parsing `b` using a non-shortest compact-size form, `raw = b` still
holds but `raw` differs from the shortest-form re-encoding; see the
counterexample.) -/
theorem C3_parse_raw_roundtrip :
    (∀ (l : List Byte) (t : Transaction),
        Transaction.parse l = some (t, []) → l.length ≤ 1000000 → t.raw = l) ∧
    (∀ t : Transaction, t.wfFields → (encodeFields t).length ≤ 1000000 →
        Transaction.parse (encodeFields t)
            = some ({ t with raw := encodeFields t }, []) ∧
          encodeFields { t with raw := encodeFields t } = encodeFields t) := by
  constructor
  · intro l t h _
    have h2 := Transaction.parse_raw_append h
    simpa using h2
  · intro t hwf _
    exact ⟨Transaction.parse_encodeFields t hwf, rfl⟩

/-- Witness for C3: the concrete coinbase transaction round-trips, and its
raw span is the concatenation of the re-encoded fields. -/
theorem C3_parse_raw_roundtrip_witness :
    Transaction.parse (encodeFields cbTx0) = some (cbTx, []) ∧
      cbTx.raw = encodeFields cbTx0 := by
  have h := C3_parse_raw_roundtrip.2 cbTx0 (by decide) (by decide)
  exact ⟨h.1, rfl⟩

/-- Counterexample for C3 as stated: `bNC` is a valid transaction encoding
(its input count uses the legal, non-shortest form `FD 01 00`), it parses
fully with `raw = bNC`, yet `raw` is not the concatenation of the parsed
fields' (shortest-form) encodings. -/
theorem C3_counterexample :
    Transaction.parse bNC = some (tNC, []) ∧ tNC.raw = bNC ∧
      bNC.length ≤ 1000000 ∧ tNC.raw ≠ encodeFields tNC := by decide

/-! ## Claims C1, C2, C5 (store effects of `verify_and_store`) -/

theorem Index.get_set_self (ix : Index) (h : List Byte) (p : Nat) :
    (ix.set h p).get h = some p := by
  simp [Index.get, Index.set, List.find?_cons]

/-- **C1**.  If `verify_and_store` answers `VerifiedAndStored` producing
store `s'`, then running it again on `s'` answers `AlreadyExists` and
returns `s'` unchanged: no write to `block_content` or `index`. -/
theorem C1_store_idempotent (dsha : HashFn) (V : ScriptVerifier)
    (t : Transaction) (s s' : Store)
    (h : Transaction.verify_and_store dsha V t s = (.ok .VerifiedAndStored, s')) :
    Transaction.verify_and_store dsha V t s' = (.ok .AlreadyExists, s') := by
  unfold Transaction.verify_and_store at h ⊢
  cases hs : t.verify_syntax with
  | error e => rw [hs] at h; simp at h
  | ok u =>
    cases u
    rw [hs] at h
    cases hg : s.index.get (dsha t.raw) with
    | some p => rw [hg] at h; simp at h
    | none =>
      rw [hg] at h
      cases hscr : (if ¬ t.is_coinbase then t.verify_input_scripts V s else .ok ()) with
      | error e => rw [hscr] at h; simp at h
      | ok u =>
        cases u
        rw [hscr] at h
        simp only [Prod.mk.injEq] at h
        obtain ⟨-, h2⟩ := h
        subst h2
        simp [Index.get_set_self]

/-- Witness for C1: storing the concrete coinbase transaction into the
empty store succeeds, and the immediate second call answers
`AlreadyExists` on the unchanged store. -/
theorem C1_store_idempotent_witness :
    Transaction.verify_and_store dsha0 verifierOk cbTx store1
      = (.ok .AlreadyExists, store1) :=
  C1_store_idempotent dsha0 verifierOk cbTx store0 store1 (by decide)

/-- **C2**.  Whenever `verify_and_store` returns anything other than
`VerifiedAndStored` — any `TransactionError` or `AlreadyExists` — the store
comes back unchanged: the single write happens only on the success path. -/
theorem C2_no_partial_effect (dsha : HashFn) (V : ScriptVerifier)
    (t : Transaction) (s : Store)
    (h : (Transaction.verify_and_store dsha V t s).1 ≠ .ok .VerifiedAndStored) :
    (Transaction.verify_and_store dsha V t s).2 = s := by
  unfold Transaction.verify_and_store at h ⊢
  cases hs : t.verify_syntax with
  | error e => rfl
  | ok u =>
    cases u
    cases hg : s.index.get (dsha t.raw) with
    | some p => rfl
    | none =>
      cases hscr : (if ¬ t.is_coinbase then t.verify_input_scripts V s else .ok ()) with
      | error e => rfl
      | ok u =>
        cases u
        rw [hs, hg, hscr] at h
        exact absurd rfl h

/-- Witness for C2: a transaction with no inputs fails `verify_syntax`
(`NoInputs`) and leaves the empty store untouched. -/
theorem C2_no_partial_effect_witness :
    (Transaction.verify_and_store dsha0 verifierOk
        ⟨1, [], [], 0, [7]⟩ store0).2 = store0 :=
  C2_no_partial_effect dsha0 verifierOk ⟨1, [], [], 0, [7]⟩ store0 (by decide)

/-- A transaction passing `verify_syntax` respects the size bound. -/
theorem verify_syntax_ok_length {t : Transaction}
    (h : t.verify_syntax = .ok ()) : t.raw.length ≤ MAX_TRANSACTION_SIZE := by
  unfold Transaction.verify_syntax at h
  split_ifs at h with h1 h2 h3 h4
  all_goals omega

/-- **C5**.  `verify_syntax` answers `TransactionTooLarge` exactly when the
raw length exceeds `MAX_TRANSACTION_SIZE = 1000000`; consequently any blob
that `verify_and_store` adds to the store's block content is the verified
transaction's raw span, of length at most `MAX_TRANSACTION_SIZE`. -/
theorem C5_size_limit :
    (∀ t : Transaction, t.verify_syntax = .error .TransactionTooLarge ↔
        MAX_TRANSACTION_SIZE < t.raw.length) ∧
    (∀ (dsha : HashFn) (V : ScriptVerifier) (t : Transaction) (s : Store),
      ∀ blob ∈ ((Transaction.verify_and_store dsha V t s).2).block_content.blobs,
        blob ∈ s.block_content.blobs ∨
          (blob = t.raw ∧ t.raw.length ≤ MAX_TRANSACTION_SIZE)) := by
  constructor
  · intro t
    unfold Transaction.verify_syntax
    constructor
    · intro h
      split_ifs at h with h1 h2 h3 h4 <;> first | omega | simp at h
    · intro hlen
      rw [if_pos hlen]
  · intro dsha V t s blob hb
    revert hb
    unfold Transaction.verify_and_store
    cases hs : t.verify_syntax with
    | error e => exact fun hb => Or.inl hb
    | ok u =>
      cases u
      cases hg : s.index.get (dsha t.raw) with
      | some p => exact fun hb => Or.inl hb
      | none =>
        cases hscr : (if ¬ t.is_coinbase then t.verify_input_scripts V s else .ok ()) with
        | error e => exact fun hb => Or.inl hb
        | ok u =>
          cases u
          intro hb
          simp only [BlockContent.write, List.mem_append, List.mem_singleton] at hb
          rcases hb with hb | hb
          · exact Or.inl hb
          · exact Or.inr ⟨hb, verify_syntax_ok_length hs⟩

/-! ## Claim C4 -/

/-- The duplicate-input scan finds a duplicate exactly when the input list
is not pairwise distinct on `(prev_tx_out_idx, prev_tx_out)`. -/
theorem hasDuplicateInputs_iff (l : List TxInput) :
    hasDuplicateInputs l = true ↔ ¬ l.Pairwise (fun a b => ¬ samePrevOut a b) := by
  induction l with
  | nil => simp [hasDuplicateInputs]
  | cons a rest ih =>
    rw [List.pairwise_cons]
    simp only [hasDuplicateInputs, Bool.or_eq_true, List.any_eq_true,
      Bool.and_eq_true, beq_iff_eq, ih, samePrevOut]
    constructor
    · rintro (⟨b, hb, h1, h2⟩ | hnp) hc
      · exact hc.1 b hb ⟨h1, h2⟩
      · exact hnp hc.2
    · intro hn
      by_cases hex : ∃ b ∈ rest,
          a.prev_tx_out_idx = b.prev_tx_out_idx ∧ a.prev_tx_out = b.prev_tx_out
      · exact Or.inl hex
      · refine Or.inr (fun hp => hn ⟨fun b hb hs => hex ⟨b, hb, hs⟩, hp⟩)

/-- **C4** (amended).  For every transaction inside the size bound and with
at least one output, two inputs sharing `(prev_hash, prev_index)` make
`verify_syntax` answer `DuplicateInputs`; the result of `verify_syntax` is
invariant under permuting the inputs (sizes kept equal); and with all
prev-out pairs distinct `verify_syntax` never answers `DuplicateInputs`.
(As stated the claim fails without the size/non-empty-output provisos: the
size and output checks run first; see the counterexample.) -/
theorem C4_duplicate_inputs :
    (∀ (t : Transaction) (i j : Nat) (hi : i < t.txs_in.length)
        (hj : j < t.txs_in.length), i ≠ j →
        samePrevOut t.txs_in[i] t.txs_in[j] →
        t.raw.length ≤ MAX_TRANSACTION_SIZE → t.txs_out ≠ [] →
        t.verify_syntax = .error .DuplicateInputs) ∧
    (∀ t t' : Transaction, t'.raw.length = t.raw.length →
        t'.txs_out.length = t.txs_out.length → t.txs_in.Perm t'.txs_in →
        t'.verify_syntax = t.verify_syntax) ∧
    (∀ t : Transaction,
        (∀ (i j : Nat) (hi : i < t.txs_in.length) (hj : j < t.txs_in.length),
          i ≠ j → ¬ samePrevOut t.txs_in[i] t.txs_in[j]) →
        t.verify_syntax ≠ .error .DuplicateInputs) := by
  refine ⟨?_, ?_, ?_⟩
  · intro t i j hi hj hne hsame hsize houts
    have hdup : hasDuplicateInputs t.txs_in = true := by
      rw [hasDuplicateInputs_iff]
      intro hp
      rw [List.pairwise_iff_getElem] at hp
      rcases Nat.lt_or_ge i j with hij | hij
      · exact hp i j hi hj hij hsame
      · have hji : j < i := by omega
        exact hp j i hj hi hji ⟨hsame.1.symm, hsame.2.symm⟩
    have hin : t.txs_in ≠ [] := by
      intro h0
      rw [h0] at hi
      simp at hi
    unfold Transaction.verify_syntax
    rw [if_neg (by omega), if_neg (by simp [hin]), if_neg (by simp [houts]),
      if_pos hdup]
  · intro t t' hraw houts hperm
    have hsymm : ∀ {x y : TxInput}, ¬ samePrevOut x y → ¬ samePrevOut y x :=
      fun hxy h => hxy ⟨h.1.symm, h.2.symm⟩
    have hdup : hasDuplicateInputs t'.txs_in = hasDuplicateInputs t.txs_in := by
      rw [Bool.eq_iff_iff, hasDuplicateInputs_iff, hasDuplicateInputs_iff,
        hperm.pairwise_iff hsymm]
    have hlen := hperm.length_eq
    have hin_e : t'.txs_in.isEmpty = t.txs_in.isEmpty := by
      rw [Bool.eq_iff_iff, List.isEmpty_iff_length_eq_zero,
        List.isEmpty_iff_length_eq_zero, hlen]
    have hout_e : t'.txs_out.isEmpty = t.txs_out.isEmpty := by
      rw [Bool.eq_iff_iff, List.isEmpty_iff_length_eq_zero,
        List.isEmpty_iff_length_eq_zero, houts]
    unfold Transaction.verify_syntax
    rw [hraw, hin_e, hout_e, hdup]
  · intro t hdist hcontra
    have hp : t.txs_in.Pairwise (fun a b => ¬ samePrevOut a b) := by
      rw [List.pairwise_iff_getElem]
      intro i j hi hj hij
      exact hdist i j hi hj (Nat.ne_of_lt hij)
    unfold Transaction.verify_syntax at hcontra
    split_ifs at hcontra with h1 h2 h3 h4
    all_goals first
      | exact (hasDuplicateInputs_iff _).mp h4 hp
      | simp at hcontra

/-- Witness for C4: the amended implication applied to a concrete
transaction with two identical inputs and one output: `DuplicateInputs`. -/
theorem C4_duplicate_inputs_witness :
    tDupOk.verify_syntax = .error .DuplicateInputs :=
  C4_duplicate_inputs.1 tDupOk 0 1 (by decide) (by decide) (by decide)
    (by decide) (by decide) (by decide)

/-- Counterexample for C4 as stated: a transaction with two identical
inputs but no outputs fails `verify_syntax` with `NoOutputs`, not
`DuplicateInputs`, because the output check runs before the duplicate
scan. -/
theorem C4_counterexample :
    tDup.txs_in = [dupIn, dupIn] ∧ samePrevOut dupIn dupIn ∧
      tDup.raw.length ≤ MAX_TRANSACTION_SIZE ∧
      tDup.verify_syntax = .error .NoOutputs ∧
      tDup.verify_syntax ≠ .error .DuplicateInputs := by decide

/-! ## Claim C6 -/

/-- One step of the `verify_input_scripts` loop is the per-input check
followed by the rest of the loop. -/
theorem checkInputsFrom_cons (V : ScriptVerifier) (t : Transaction) (s : Store)
    (i : Nat) (input : TxInput) (rest : List TxInput) :
    checkInputsFrom V t s i (input :: rest) =
      match inputCheck V t s i input with
      | .error e => .error e
      | .ok () => checkInputsFrom V t s (i + 1) rest := rfl

/-- The loop succeeds iff every enumerated input passes its check. -/
theorem checkInputsFrom_ok_iff (V : ScriptVerifier) (t : Transaction)
    (s : Store) :
    ∀ (l : List TxInput) (i0 : Nat),
      checkInputsFrom V t s i0 l = .ok () ↔
        ∀ (k : Nat) (hk : k < l.length), inputCheck V t s (i0 + k) l[k] = .ok () := by
  intro l
  induction l with
  | nil => simp [checkInputsFrom]
  | cons a rest ih =>
    intro i0
    rw [checkInputsFrom_cons]
    cases hc : inputCheck V t s i0 a with
    | error e =>
      constructor
      · intro h
        exact absurd h (by simp)
      · intro h
        have h0 := h 0 (by simp)
        rw [Nat.add_zero, List.getElem_cons_zero, hc] at h0
        exact absurd h0 (by simp)
    | ok u =>
      cases u
      rw [ih (i0 + 1)]
      constructor
      · intro h k hk
        match k with
        | 0 => rw [Nat.add_zero, List.getElem_cons_zero, hc]
        | k + 1 =>
          rw [List.getElem_cons_succ]
          have := h k (by simpa using Nat.lt_of_succ_lt_succ hk)
          rw [show i0 + 1 + k = i0 + (k + 1) from by omega] at this
          exact this
      · intro h k hk
        have := h (k + 1) (by simpa using Nat.succ_lt_succ hk)
        rw [List.getElem_cons_succ] at this
        rw [show i0 + 1 + k = i0 + (k + 1) from by omega]
        exact this

/-- The loop fails with `e` iff some input fails with `e` and every earlier
input passes: inputs are examined in position order and the first failure
is returned. -/
theorem checkInputsFrom_error_iff (V : ScriptVerifier) (t : Transaction)
    (s : Store) :
    ∀ (l : List TxInput) (i0 : Nat) (e : TransactionError),
      checkInputsFrom V t s i0 l = .error e ↔
        ∃ (k : Nat) (hk : k < l.length),
          inputCheck V t s (i0 + k) l[k] = .error e ∧
          ∀ (j : Nat) (hj : j < k),
            inputCheck V t s (i0 + j) (l.get ⟨j, by omega⟩) = .ok () := by
  intro l
  induction l with
  | nil => simp [checkInputsFrom]
  | cons a rest ih =>
    intro i0 e
    rw [checkInputsFrom_cons]
    cases hc : inputCheck V t s i0 a with
    | error e' =>
      constructor
      · intro h
        simp only [Except.error.injEq] at h
        refine ⟨0, by simp, ?_, ?_⟩
        · rw [Nat.add_zero, List.getElem_cons_zero, hc, h]
        · intro j hj
          exact absurd hj (by omega)
      · rintro ⟨k, hk, hke, hjs⟩
        match k with
        | 0 =>
          rw [Nat.add_zero, List.getElem_cons_zero, hc] at hke
          simp only [Except.error.injEq] at hke
          rw [hke]
        | k + 1 =>
          have h0 : inputCheck V t s i0 a = .ok () := hjs 0 (by omega)
          rw [hc] at h0
          exact absurd h0 (by simp)
    | ok u =>
      cases u
      rw [ih (i0 + 1)]
      constructor
      · rintro ⟨k, hk, hke, hjs⟩
        refine ⟨k + 1, by simpa using Nat.succ_lt_succ hk, ?_, ?_⟩
        · rw [List.getElem_cons_succ]
          rw [show i0 + (k + 1) = i0 + 1 + k from by omega]
          exact hke
        · intro j hj
          match j with
          | 0 => exact hc
          | j + 1 =>
            have h1 : inputCheck V t s (i0 + 1 + j) (rest.get ⟨j, by omega⟩)
                = .ok () := hjs j (by omega)
            rw [show i0 + (j + 1) = i0 + 1 + j from by omega]
            exact h1
      · rintro ⟨k, hk, hke, hjs⟩
        match k with
        | 0 =>
          rw [Nat.add_zero, List.getElem_cons_zero, hc] at hke
          exact absurd hke (by simp)
        | k + 1 =>
          refine ⟨k, by simpa using Nat.lt_of_succ_lt_succ hk, ?_, ?_⟩
          · rw [show i0 + 1 + k = i0 + (k + 1) from by omega]
            simpa [List.getElem_cons_succ] using hke
          · intro j hj
            have h1 : inputCheck V t s (i0 + (j + 1))
                (rest.get ⟨j, by simp only [List.length_cons] at hk; omega⟩)
                = .ok () := hjs (j + 1) (by omega)
            rw [show i0 + 1 + j = i0 + (j + 1) from by omega]
            exact h1

/-- A pointer produced by an index lookup belongs to an index entry. -/
theorem Index.get_mem {ix : Index} {h : List Byte} {p : Nat}
    (hg : ix.get h = some p) : ∃ en ∈ ix.entries, en.2 = p := by
  unfold Index.get at hg
  cases hf : ix.entries.find? (fun e => e.1 == h) with
  | none => rw [hf] at hg; simp at hg
  | some en =>
    rw [hf] at hg
    simp only [Option.map_some', Option.some.injEq] at hg
    exact ⟨en, List.mem_of_find?_eq_some hf, hg⟩

/-- Under the store invariant the per-input check can only fail with
`OutputTransactionNotFound`, `OutputIndexNotFound` or `ScriptError`. -/
theorem inputCheck_error_cases {V : ScriptVerifier} {t : Transaction}
    {s : Store} (hwf : wfStore s) {i : Nat} {input : TxInput}
    {e : TransactionError} (h : inputCheck V t s i input = .error e) :
    e = .OutputTransactionNotFound ∨ e = .OutputIndexNotFound ∨
      ∃ code, e = .ScriptError code := by
  unfold inputCheck at h
  split at h
  · simp only [Except.error.injEq] at h
    exact Or.inl h.symm
  · rename_i ptr hg
    split at h
    · rename_i hparse
      obtain ⟨en, hen, hp⟩ := Index.get_mem hg
      have hsome := hwf en hen
      rw [hp, hparse] at hsome
      simp at hsome
    · rename_i prev rr hparse
      split at h
      · simp only [Except.error.injEq] at h
        exact Or.inr (Or.inl h.symm)
      · rename_i out hout
        dsimp only at h
        split at h
        · simp only [Except.error.injEq] at h
          exact Or.inr (Or.inr ⟨V t.raw out.pk_script i 0, h.symm⟩)
        · exact absurd h (by simp)

/-- **C6**.  `verify_input_scripts` examines inputs in position order.  It
succeeds iff every input passes its check; it fails with `e` iff the first
failing input fails with `e`, where the per-input check (`inputCheck`, read
off the loop body) answers `OutputTransactionNotFound` when the prev-hash
is absent from the index, otherwise `OutputIndexNotFound` when
`prev_tx_out_idx` is out of range of the referenced transaction's outputs,
otherwise `ScriptError code` when the external verifier, called with the
spending transaction's raw bytes, the referenced output's `pk_script`, the
input position and flags 0, returns `code ≠ 1`.  Under the store invariant
these three are the only failures. -/
theorem C6_input_script_errors (V : ScriptVerifier) (t : Transaction)
    (s : Store) (hwf : wfStore s) :
    (t.verify_input_scripts V s = .ok () ↔
        ∀ (i : Nat) (hi : i < t.txs_in.length),
          inputCheck V t s i t.txs_in[i] = .ok ()) ∧
    (∀ e : TransactionError,
        t.verify_input_scripts V s = .error e ↔
          ∃ (i : Nat) (hi : i < t.txs_in.length),
            inputCheck V t s i t.txs_in[i] = .error e ∧
            ∀ (j : Nat) (hj : j < i),
              inputCheck V t s j (t.txs_in.get ⟨j, by omega⟩) = .ok ()) ∧
    (∀ e : TransactionError, t.verify_input_scripts V s = .error e →
        e = .OutputTransactionNotFound ∨ e = .OutputIndexNotFound ∨
          ∃ code, e = .ScriptError code) := by
  refine ⟨?_, ?_, ?_⟩
  · have h := checkInputsFrom_ok_iff V t s t.txs_in 0
    simpa [Transaction.verify_input_scripts] using h
  · intro e
    have h := checkInputsFrom_error_iff V t s t.txs_in 0 e
    simpa [Transaction.verify_input_scripts] using h
  · intro e he
    obtain ⟨i, hi, hke, -⟩ := (checkInputsFrom_error_iff V t s t.txs_in 0 e).mp
      (by simpa [Transaction.verify_input_scripts] using he)
    exact inputCheck_error_cases hwf hke

/-- Witness for C6: the store `storeC6` (one stored, parseable transaction)
satisfies the invariant, and `spendTx`, whose single input resolves against
it, passes input-script verification with the all-accepting verifier. -/
theorem C6_input_script_errors_witness :
    spendTx.verify_input_scripts verifierOk storeC6 = .ok () :=
  (C6_input_script_errors verifierOk spendTx storeC6 (by decide)).1.mpr
    (by decide)

/-- Witness for C5: instantiating the size characterization at `cbTx`
(small, hence not `TransactionTooLarge`) and the store clause at the
concrete successful insertion of `cbTx` into the empty store. -/
theorem C5_size_limit_witness :
    (cbTx.verify_syntax = .error .TransactionTooLarge ↔
        MAX_TRANSACTION_SIZE < cbTx.raw.length) ∧
      (cbTx.raw ∈ store0.block_content.blobs ∨
        (cbTx.raw = cbTx.raw ∧ cbTx.raw.length ≤ MAX_TRANSACTION_SIZE)) :=
  ⟨C5_size_limit.1 cbTx,
    C5_size_limit.2 dsha0 verifierOk cbTx store0 cbTx.raw (by decide)⟩

/-! ## Claim C10 -/

/-- **C10**.  On a `sendcmpct` payload of at least 9 bytes the parser
produces `SendCompact` with the flag true exactly when the first byte is
`0x01` (the one-byte slice is compared against `[1]`) and the version read
as a little-endian u64 from the following 8 bytes. -/
theorem C10_send_compact (body : List Byte) (h : 9 ≤ body.length) :
    send_compactP body
        = .done (body.drop 9)
            (.SendCompact (body.take 1 == [1]) (leNat ((body.drop 1).take 8))) ∧
      ((body.take 1 == [1]) = true ↔ body.get? 0 = some 1) := by
  constructor
  · simp only [send_compactP, nbind, nLE, ntake, ndone]
    rw [if_pos (show 1 ≤ body.length by omega)]
    dsimp only
    rw [if_pos (show 8 ≤ (body.drop 1).length by simp [List.length_drop]; omega)]
    simp [List.drop_drop]
  · cases body with
    | nil => simp at h
    | cons b rest => simp

/-- Witness for C10: the 9-byte payload `scBody` decodes to
`SendCompact true 2`. -/
theorem C10_send_compact_witness :
    send_compactP scBody = .done [] (.SendCompact true 2) := by
  have h := (C10_send_compact scBody (by decide)).1
  rw [h]
  rfl

/-! ## Claim C7 -/

theorem noCustom_ndone {α : Type} (a : α) : NoCustom (ndone a) := by
  intro l c
  simp [ndone]

theorem noCustom_ntake (n : Nat) : NoCustom (ntake n) := by
  intro l c
  unfold ntake
  split <;> simp

theorem noCustom_nbind {α β : Type} {p : NParser α} {f : α → NParser β}
    (hp : NoCustom p) (hf : ∀ a, NoCustom (f a)) : NoCustom (nbind p f) := by
  intro l c
  unfold nbind
  cases hres : p l with
  | done r v => exact hf v r c
  | incomplete => simp
  | error e =>
    intro heq
    have he : e = some c := by injection heq
    exact hp l c (by rw [← he]; exact hres)

theorem noCustom_nLE (w : Nat) : NoCustom (nLE w) :=
  noCustom_nbind (noCustom_ntake w) (fun a => noCustom_ndone (leNat a))

theorem noCustom_nBE16 : NoCustom nBE16 :=
  noCustom_nbind (noCustom_ntake 2) (fun a => noCustom_ndone (beNat a))

theorem noCustom_ncompact : NoCustom ncompact := by
  intro l c
  unfold ncompact
  cases l with
  | nil => simp
  | cons b rest =>
    dsimp only
    split_ifs
    · exact noCustom_nLE 8 rest c
    · exact noCustom_nLE 4 rest c
    · exact noCustom_nLE 2 rest c
    · simp

theorem noCustom_ncount {α : Type} {p : NParser α} (hp : NoCustom p) :
    ∀ n, NoCustom (ncount p n) := by
  intro n
  induction n with
  | zero => exact noCustom_ndone []
  | succ n ih =>
    exact noCustom_nbind hp
      (fun a => noCustom_nbind ih (fun as => noCustom_ndone (a :: as)))

theorem noCustom_ipv6P : NoCustom ipv6P := noCustom_ncount noCustom_nBE16 8

theorem noCustom_version_net_addrP : NoCustom version_net_addrP :=
  noCustom_nbind (noCustom_nLE 8) (fun _ =>
  noCustom_nbind noCustom_ipv6P (fun _ =>
  noCustom_nbind noCustom_nBE16 (fun _ => noCustom_ndone _)))

theorem noCustom_net_addrP : NoCustom net_addrP :=
  noCustom_nbind (noCustom_nLE 4) (fun _ =>
  noCustom_nbind (noCustom_nLE 8) (fun _ =>
  noCustom_nbind noCustom_ipv6P (fun _ =>
  noCustom_nbind noCustom_nBE16 (fun _ => noCustom_ndone _))))

theorem noCustom_variable_strP : NoCustom variable_strP :=
  noCustom_nbind noCustom_ncompact (fun len => noCustom_ntake len)

theorem noCustom_versionP : NoCustom versionP := by
  refine noCustom_nbind (noCustom_nLE 4) (fun version =>
    noCustom_nbind (noCustom_nLE 8) (fun _ =>
    noCustom_nbind (noCustom_nLE 8) (fun _ =>
    noCustom_nbind noCustom_version_net_addrP (fun _ =>
    noCustom_nbind noCustom_version_net_addrP (fun _ =>
    noCustom_nbind (noCustom_nLE 8) (fun _ =>
    noCustom_nbind noCustom_variable_strP (fun _ =>
    noCustom_nbind (noCustom_nLE 4) (fun _ =>
    noCustom_nbind ?_ (fun _ => noCustom_ndone _)))))))))
  intro l c
  split
  · exact noCustom_nbind (noCustom_ntake 1) (fun b => noCustom_ndone (some b)) l c
  · simp

theorem noCustom_inv_vectorP : NoCustom inv_vectorP :=
  noCustom_nbind (noCustom_nLE 4) (fun _ =>
  noCustom_nbind (noCustom_ntake 32) (fun _ => noCustom_ndone _))

theorem noCustom_invP : NoCustom invP :=
  noCustom_nbind noCustom_ncompact (fun count =>
  noCustom_nbind (noCustom_ncount noCustom_inv_vectorP count)
    (fun _ => noCustom_ndone _))

theorem noCustom_getdataP : NoCustom getdataP :=
  noCustom_nbind noCustom_ncompact (fun count =>
  noCustom_nbind (noCustom_ncount noCustom_inv_vectorP count)
    (fun _ => noCustom_ndone _))

theorem noCustom_block_headerP : NoCustom block_headerP :=
  noCustom_nbind (noCustom_nLE 4) (fun _ =>
  noCustom_nbind (noCustom_ntake 32) (fun _ =>
  noCustom_nbind (noCustom_ntake 32) (fun _ =>
  noCustom_nbind (noCustom_nLE 4) (fun _ =>
  noCustom_nbind (noCustom_nLE 4) (fun _ =>
  noCustom_nbind (noCustom_nLE 4) (fun _ =>
  noCustom_nbind noCustom_ncompact (fun _ => noCustom_ndone _)))))))

theorem noCustom_headersP : NoCustom headersP :=
  noCustom_nbind noCustom_ncompact (fun count =>
  noCustom_nbind (noCustom_ncount noCustom_block_headerP count)
    (fun _ => noCustom_ndone _))

theorem noCustom_getheadersP : NoCustom getheadersP :=
  noCustom_nbind (noCustom_nLE 4) (fun _ =>
  noCustom_nbind noCustom_ncompact (fun count =>
  noCustom_nbind (noCustom_ncount (noCustom_ntake 32) count) (fun _ =>
  noCustom_nbind (noCustom_ntake 32) (fun _ => noCustom_ndone _))))

theorem noCustom_getblocksP : NoCustom getblocksP :=
  noCustom_nbind (noCustom_nLE 4) (fun _ =>
  noCustom_nbind noCustom_ncompact (fun count =>
  noCustom_nbind (noCustom_ncount (noCustom_ntake 32) count) (fun _ =>
  noCustom_nbind (noCustom_ntake 32) (fun _ => noCustom_ndone _))))

theorem noCustom_send_compactP : NoCustom send_compactP :=
  noCustom_nbind (noCustom_ntake 1) (fun _ =>
  noCustom_nbind (noCustom_nLE 8) (fun _ => noCustom_ndone _))

theorem noCustom_feefilterP : NoCustom feefilterP :=
  noCustom_nbind (noCustom_nLE 8) (fun _ => noCustom_ndone _)

theorem noCustom_pingP : NoCustom pingP :=
  noCustom_nbind (noCustom_nLE 8) (fun _ => noCustom_ndone _)

theorem noCustom_pongP : NoCustom pongP :=
  noCustom_nbind (noCustom_nLE 8) (fun _ => noCustom_ndone _)

theorem noCustom_addrP : NoCustom addrP :=
  noCustom_nbind noCustom_ncompact (fun count =>
  noCustom_nbind (noCustom_ncount noCustom_net_addrP count)
    (fun _ => noCustom_ndone _))

theorem noCustom_bcr_pcrP : NoCustom bcr_pcrP :=
  noCustom_nbind (noCustom_ntake 8) (fun _ =>
  noCustom_nbind (noCustom_ntake 32) (fun _ => noCustom_ndone _))

theorem noCustom_bcr_pcP : NoCustom bcr_pcP :=
  noCustom_nbind (noCustom_nLE 8) (fun _ => noCustom_ndone _)

/-- No branch of the command dispatch can produce a `Custom`-coded
error. -/
theorem noCustom_dispatchP (i : List Byte) (rm : RawMsg) (c : Nat) :
    dispatchP i rm ≠ .error (some c) := by
  unfold dispatchP
  by_cases h0 : rm.message_type = ascii "version"
  · rw [if_pos h0]
    exact noCustom_versionP rm.body c
  · rw [if_neg h0]
    by_cases h1 : rm.message_type = ascii "verack"
    · rw [if_pos h1]
      simp
    · rw [if_neg h1]
      by_cases h2 : rm.message_type = ascii "sendheaders"
      · rw [if_pos h2]
        simp
      · rw [if_neg h2]
        by_cases h3 : rm.message_type = ascii "getdata"
        · rw [if_pos h3]
          exact noCustom_getdataP rm.body c
        · rw [if_neg h3]
          by_cases h4 : rm.message_type = ascii "getblocks"
          · rw [if_pos h4]
            exact noCustom_getblocksP rm.body c
          · rw [if_neg h4]
            by_cases h5 : rm.message_type = ascii "getheaders"
            · rw [if_pos h5]
              exact noCustom_getheadersP rm.body c
            · rw [if_neg h5]
              by_cases h6 : rm.message_type = ascii "sendcmpct"
              · rw [if_pos h6]
                exact noCustom_send_compactP rm.body c
              · rw [if_neg h6]
                by_cases h7 : rm.message_type = ascii "feefilter"
                · rw [if_pos h7]
                  exact noCustom_feefilterP rm.body c
                · rw [if_neg h7]
                  by_cases h8 : rm.message_type = ascii "ping"
                  · rw [if_pos h8]
                    exact noCustom_pingP rm.body c
                  · rw [if_neg h8]
                    by_cases h9 : rm.message_type = ascii "pong"
                    · rw [if_pos h9]
                      exact noCustom_pongP rm.body c
                    · rw [if_neg h9]
                      by_cases h10 : rm.message_type = ascii "addr"
                      · rw [if_pos h10]
                        exact noCustom_addrP rm.body c
                      · rw [if_neg h10]
                        by_cases h11 : rm.message_type = ascii "headers"
                        · rw [if_pos h11]
                          exact noCustom_headersP rm.body c
                        · rw [if_neg h11]
                          by_cases h12 : rm.message_type = ascii "inv"
                          · rw [if_pos h12]
                            exact noCustom_invP rm.body c
                          · rw [if_neg h12]
                            by_cases h13 : rm.message_type = ascii "bcr_pcr"
                            · rw [if_pos h13]
                              exact noCustom_bcr_pcrP rm.body c
                            · rw [if_neg h13]
                              by_cases h14 : rm.message_type = ascii "bcr_pc"
                              · rw [if_pos h14]
                                exact noCustom_bcr_pcP rm.body c
                              · rw [if_neg h14]
                                simp

/-- **C7**.  When a complete envelope is framed (`rawMessageP` is done) and
the stored checksum does not equal the first 4 bytes of the double-SHA-256
of the payload, `messageP` fails with the `Custom` code
`(payload_len + 20) % 2^32` — equal to `payload_len + 20` whenever that sum
fits in a u32, i.e. for every frame shorter than about 4 GiB; when the
checksum matches, no `Custom`-coded error is ever produced. -/
theorem C7_checksum_error (dsha : HashFn) (l rest : List Byte) (rm : RawMsg)
    (hframe : rawMessageP l = .done rest rm) :
    (¬ rm.valid dsha = true →
        messageP dsha l = .error (some ((rm.len + 20) % 2 ^ 32)) ∧
        (rm.len + 20 < 2 ^ 32 → (rm.len + 20) % 2 ^ 32 = rm.len + 20)) ∧
    (rm.valid dsha = true → ∀ c, messageP dsha l ≠ .error (some c)) ∧
    (rm.valid dsha = true ↔ (dsha rm.body).take 4 = rm.checksum) := by
  refine ⟨?_, ?_, ?_⟩
  · intro hnv
    refine ⟨?_, fun hlt => Nat.mod_eq_of_lt hlt⟩
    unfold messageP
    rw [hframe]
    dsimp only
    rw [if_pos hnv]
  · intro hv c
    unfold messageP
    rw [hframe]
    dsimp only
    rw [if_neg (by simp [hv])]
    exact noCustom_dispatchP rest rm c
  · unfold RawMsg.valid
    exact beq_iff_eq

/-- Witness for C7: the concrete `verack` frame with corrupted checksum
fails with code `0 + 20 = 20`, and the intact frame never yields a
`Custom`-coded error. -/
theorem C7_checksum_error_witness :
    messageP dsha0 badChecksumFrame = .error (some 20) ∧
      ∀ c, messageP dsha0 verackFrame ≠ .error (some c) := by
  constructor
  · have h := (C7_checksum_error dsha0 badChecksumFrame []
      ⟨.Main, ascii "verack", 0, [1, 2, 3, 4], []⟩ (by decide)).1 (by decide)
    rw [h.1]
    rfl
  · exact (C7_checksum_error dsha0 verackFrame []
      ⟨.Main, ascii "verack", 0, [0, 0, 0, 0], []⟩ (by decide)).2.1 (by decide)

/-! ## Claim C8 -/

/-- Unfolding of `searchHeader` at a cons cell. -/
theorem searchHeader_cons (a : Byte) (rest : List Byte) :
    searchHeader (a :: rest) =
      match isMagicTag (a :: rest) with
      | some net => some (4, net)
      | none => (searchHeader rest).map (fun q => (q.1 + 1, q.2)) := rfl

/-- When no magic tag occurrence of `p ++ i` begins inside `p`, the scan
resynchronizes at `i`'s first magic tag, shifted by `p.length`. -/
theorem searchHeader_append (p i : List Byte)
    (h : ∀ k, k < p.length → isMagicTag ((p ++ i).drop k) = none) :
    searchHeader (p ++ i)
      = (searchHeader i).map (fun q => (q.1 + p.length, q.2)) := by
  induction p with
  | nil =>
    rw [List.nil_append]
    cases searchHeader i with
    | none => simp
    | some q => simp
  | cons a p' ih =>
    have h0 : isMagicTag (a :: (p' ++ i)) = none := by
      have := h 0 (by simp)
      simpa using this
    have hih : ∀ k, k < p'.length → isMagicTag ((p' ++ i).drop k) = none := by
      intro k hk
      have := h (k + 1) (by simp; omega)
      simpa [List.drop_succ_cons] using this
    rw [List.cons_append, searchHeader_cons, h0]
    dsimp only
    rw [ih hih]
    cases searchHeader i with
    | none => simp
    | some q =>
      simp [List.length_cons]
      omega

/-- Magic resynchronization yields the same parse state on `p ++ i` as on
`i` alone, when no magic occurrence begins inside `p`. -/
theorem magicP_append (p i : List Byte)
    (h : ∀ k, k < p.length → isMagicTag ((p ++ i).drop k) = none) :
    magicP (p ++ i) = magicP i := by
  unfold magicP
  rw [searchHeader_append p i h]
  cases hs : searchHeader i with
  | none => rfl
  | some q =>
    obtain ⟨k, net⟩ := q
    dsimp only [Option.map_some']
    have hd : (p ++ i).drop (k + p.length) = i.drop k := by
      rw [show (p ++ i).drop (k + p.length) = ((p ++ i).drop p.length).drop k
          from by rw [List.drop_drop, Nat.add_comm]]
      rw [List.drop_left]
    rw [hd]

/-- Two parsers with equal results on given inputs stay equal under
sequencing. -/
theorem nbind_congr {α β : Type} {p q : NParser α} (f : α → NParser β)
    {l₁ l₂ : List Byte} (h : p l₁ = q l₂) : nbind p f l₁ = nbind q f l₂ := by
  unfold nbind
  rw [h]

/-- **C8** (amended).  For every input `i` and noise sequence `p` such that
no magic-tag occurrence of `p ++ i` begins inside `p` — in particular `p`
contains no magic tag and none spans the `p`/`i` boundary — decoding
`p ++ i` equals decoding `i`: the decoder resynchronizes at the first magic
and discards the bytes before it.  When the input contains no magic tag at
all, decoding is incomplete.  (As stated — for every `p` merely containing
no magic itself — the claim fails: a magic tag can span the boundary; see
the counterexample.) -/
theorem C8_magic_resync (dsha : HashFn) (p i : List Byte)
    (h : ∀ k, k < p.length → isMagicTag ((p ++ i).drop k) = none) :
    messageP dsha (p ++ i) = messageP dsha i ∧
      (∀ l : List Byte, searchHeader l = none → messageP dsha l = .incomplete) := by
  constructor
  · have hmagic := magicP_append p i h
    have hheader : headerP (p ++ i) = headerP i := nbind_congr _ hmagic
    have hraw : rawMessageP (p ++ i) = rawMessageP i := nbind_congr _ hheader
    unfold messageP
    rw [hraw]
  · intro l hnone
    unfold messageP rawMessageP headerP nbind magicP
    rw [hnone]

/-- Witness for C8: prepending the 3-byte noise `[0, 250, 190]` (no magic
occurrence begins inside it) to the complete `verack` frame decodes exactly
as the frame alone. -/
theorem C8_magic_resync_witness :
    messageP dsha0 ([0, 0xFA, 0xBE] ++ verackFrame)
      = messageP dsha0 verackFrame :=
  (C8_magic_resync dsha0 [0, 0xFA, 0xBE] verackFrame (by decide)).1

/-- Counterexample for C8 as stated: `pCx = [F9]` contains no magic tag,
yet prepending it to `iCx` (the rest of a `verack` frame) completes a magic
tag across the boundary: `pCx ++ iCx` decodes to `Verack` while `iCx` alone
is incomplete. -/
theorem C8_counterexample :
    (∀ k, k < pCx.length → isMagicTag (pCx.drop k) = none) ∧
      messageP dsha0 (pCx ++ iCx) = .done [] .Verack ∧
      messageP dsha0 iCx = .incomplete := by decide

/-! ## Claim C9 -/

/-- **C9** (amended).  Whenever `header` parses an envelope header, the
produced command equals the 12-byte command field with the NUL bytes
removed from BOTH ends (`trim_matches(0x00 as char)` trims leading and
trailing matches), i.e. the trailing-NUL trim of the field with its leading
NULs already removed; interior NULs are kept.  (As stated — only trailing
NULs removed, leading ones kept — the claim fails; see the
counterexample.) -/
theorem C9_command_trim (l rest : List Byte) (hd : HeaderM)
    (h : headerP l = .done rest hd) :
    ∃ (k : Nat) (cmd : List Byte),
      searchHeader l = some (k, hd.network) ∧ cmd = (l.drop k).take 12 ∧
      cmd.length = 12 ∧ hd.message_type = trimNulls cmd ∧
      trimNulls cmd = spec_trimTrailingNuls (cmd.dropWhile (fun b => b == 0)) := by
  unfold headerP nbind magicP take_str nLE ntake ndone at h
  cases hs : searchHeader l with
  | none => rw [hs] at h; exact absurd h (by simp)
  | some q =>
    obtain ⟨k, net⟩ := q
    rw [hs] at h
    dsimp only at h
    by_cases h12 : 12 ≤ (l.drop k).length
    · rw [if_pos h12] at h
      by_cases hu : validUtf8 ((l.drop k).take 12) = true
      · rw [if_pos hu] at h
        dsimp only at h
        unfold nbind at h
        dsimp only at h
        by_cases h4 : 4 ≤ ((l.drop k).drop 12).length
        · rw [if_pos h4] at h
          dsimp only at h
          by_cases h4b : 4 ≤ (((l.drop k).drop 12).drop 4).length
          · rw [if_pos h4b] at h
            dsimp only at h
            simp only [PResult.done.injEq] at h
            obtain ⟨-, h2⟩ := h
            subst h2
            refine ⟨k, (l.drop k).take 12, rfl, rfl, ?_, rfl, rfl⟩
            simpa [List.length_take] using h12
          · rw [if_neg h4b] at h
            exact absurd h (by simp)
        · rw [if_neg h4] at h
          exact absurd h (by simp)
      · rw [if_neg hu] at h
        exact absurd h (by simp)
    · rw [if_neg h12] at h
      exact absurd h (by simp)

/-- Witness for C9: the `verack` frame's header parses and its command is
the both-ends NUL trim of the 12-byte field. -/
theorem C9_command_trim_witness :
    ∃ (k : Nat) (cmd : List Byte),
      searchHeader verackFrame = some (k, NetworkM.Main) ∧
      cmd = (verackFrame.drop k).take 12 ∧
      cmd.length = 12 ∧ (ascii "verack") = trimNulls cmd ∧
      trimNulls cmd = spec_trimTrailingNuls (cmd.dropWhile (fun b => b == 0)) :=
  C9_command_trim verackFrame []
    ⟨.Main, ascii "verack", 0, [0, 0, 0, 0]⟩ (by decide)

/-- Counterexample for C9 as stated: for the command field
`00 61 00 … 00` (`\0a` NUL-padded) the decoder produces `a` — the leading
NUL is removed as well — whereas removing only trailing NULs would keep
`\0a`. -/
theorem C9_counterexample :
    headerP hdrCx = .done [] ⟨.Main, [0x61], 0, [5, 6, 7, 8]⟩ ∧
      spec_trimTrailingNuls cmdCx = [0x00, 0x61] ∧
      ([0x61] : List Byte) ≠ spec_trimTrailingNuls cmdCx := by decide

end Bitcrust
